import Mathlib

/-
Verification of the incremental synchronization and path-indexing engine of
the homepage repository.  The definitions below are a shallow embedding of
the sync subsystem of src/googleDocsToHtml.js (the EventEmitter-based
version, lines 334-584 of the concatenated sources): the slug computation,
path resolution (buildPath), shortcut resolution, the per-item download
decision and download, the prune step (pruneStaleFiles), and the whole
syncFiles pass.  External collaborators (the Drive listing, the single-file
metadata fetch, the document fetch, and fs.unlink outcomes) are parameters
of the model, collected in the Env structure.
-/

set_option autoImplicit false

namespace GDSync

/-- MIME type of a Drive folder, as compared against in the source. -/
def folderMime : String := "application/vnd.google-apps.folder"

/-- MIME type of a Google Doc. -/
def docMime : String := "application/vnd.google-apps.document"

/-- MIME type of a Google Sheet. -/
def sheetMime : String := "application/vnd.google-apps.spreadsheet"

/-- MIME type of a Drive shortcut. -/
def shortcutMime : String := "application/vnd.google-apps.shortcut"

/-- One row of the remote listing, as consumed by syncFiles.  The `parents`
field is optional because the Drive API may omit it (the code tests
`!item.parents`); a missing name is modelled by the empty string, which is
exactly the falsy case the code guards with `name || 'untitled'`.
`shortcutTargetId` models `shortcutDetails?.targetId`. -/
structure RemoteItem where
  id : String
  name : String
  mimeType : String
  modifiedTime : String
  parents : Option (List String)
  shortcutTargetId : Option String
deriving DecidableEq

/-- One persisted index record, with exactly the five fields written by the
source (`{ id, name, mimeType, modifiedTime, parent }`); `parent` is `none`
when the code would store `null` (no parents field) or `undefined` (empty
parents array). -/
structure Entry where
  id : String
  name : String
  mimeType : String
  modifiedTime : String
  parent : Option String
deriving DecidableEq

/-- Characters matched by the JavaScript regular-expression class `\s`. -/
def isJsWs (c : Char) : Bool :=
  c.toNat == 0x09 || c.toNat == 0x0A || c.toNat == 0x0B || c.toNat == 0x0C ||
  c.toNat == 0x0D || c.toNat == 0x20 || c.toNat == 0xA0 || c.toNat == 0x1680 ||
  (0x2000 ≤ c.toNat && c.toNat ≤ 0x200A) ||
  c.toNat == 0x2028 || c.toNat == 0x2029 || c.toNat == 0x202F ||
  c.toNat == 0x205F || c.toNat == 0x3000 || c.toNat == 0xFEFF

/-- State-machine form of the regexp replacement of `\s+` by a single
hyphen: the boolean records whether the previous character was whitespace
(in which case the current run has already emitted its hyphen). -/
def hyphenateWsGo : Bool → List Char → List Char
  | _, [] => []
  | prevWs, c :: rest =>
    if isJsWs c then
      if prevWs then hyphenateWsGo true rest else '-' :: hyphenateWsGo true rest
    else c :: hyphenateWsGo false rest

/-- Removal of every character outside `[a-z0-9-]`, the second regexp
replacement of the slug computation. -/
def stripNonSlug (l : List Char) : List Char :=
  l.filter (fun c => decide (('a' ≤ c ∧ c ≤ 'z') ∨ ('0' ≤ c ∧ c ≤ '9') ∨ c = '-'))

/-- The slug computation of buildPath:
`(item.name || 'untitled').toLowerCase().replace(/\s+/g, '-').replace(/[^a-z0-9-]/g, '')`.
The empty string is the only falsy string, so it alone triggers the
`untitled` fallback.  `Char.toLower` models `toLowerCase` character-wise
(faithful on ASCII; characters it treats differently are all outside
`[a-z0-9-]` both before and after lowering for the inputs of interest). -/
def slugify (name : String) : String :=
  let base := if name = "" then "untitled" else name
  String.mk (stripNonSlug (hyphenateWsGo false (base.data.map Char.toLower)))

/-- Node's `path.posix.join` restricted to two arguments, modelled for
arguments whose segments contain no `..` (slugs never contain a dot). -/
def posixJoin (a b : String) : String :=
  let parts := ((a.splitOn "/") ++ (b.splitOn "/")).filter (fun s => s != "" && s != ".")
  let core := String.intercalate "/" parts
  if a.startsWith "/" then "/" ++ core
  else if parts.isEmpty then "." else core

/-- Lookup in the in-pass item map.  The source builds
`new Map(remoteItems.map(item => [item.id, item]))`, so for a duplicated id
the last occurrence wins. -/
def findItem (items : List RemoteItem) (itemId : String) : Option RemoteItem :=
  items.foldl (fun acc it => if it.id = itemId then some it else acc) none

/-- Fuel-indexed embedding of buildPath.  Every recursive call of the
JavaScript function consumes one unit of fuel (one stack frame); `none`
models the stack overflow that the unguarded recursion produces on a parent
chain that never reaches a base case.  The per-pass memo cache `pathCache`
is omitted: a cache entry is only ever filled with the value the completed
call itself computed, so the cache never changes any result (and a cyclic
chain never completes a call, so it never populates the cache either).  The
branch for an item whose `parents` array is empty models the recursive call
`buildPath(undefined)`, which finds nothing in the map and yields the empty
string after consuming one more frame. -/
def buildPathF (items : List RemoteItem) (rootId : String) : Nat → String → Option String
  | 0, _ => none
  | fuel + 1, itemId =>
    match findItem items itemId with
    | none => some ""
    | some item =>
      let slug := slugify item.name
      match item.parents with
      | none => some ("/" ++ slug)
      | some ps =>
        if ps.head? = some rootId then some ("/" ++ slug)
        else
          match ps.head? with
          | none =>
            (match fuel with
             | 0 => none
             | _ + 1 => some "").map (fun pp => posixJoin pp slug)
          | some parentId =>
            (buildPathF items rootId fuel parentId).map (fun pp => posixJoin pp slug)

/-- Lexicographic comparison of character lists by code point, the order
JavaScript `<` uses on strings (identical to code-unit order on the ASCII
timestamps compared here). -/
def strLtChars : List Char → List Char → Bool
  | _, [] => false
  | [], _ :: _ => true
  | a :: as, b :: bs =>
    if a.toNat < b.toNat then true
    else if b.toNat < a.toNat then false
    else strLtChars as bs

/-- JavaScript string comparison `a > b`. -/
def jsGt (a b : String) : Bool := strLtChars b.data a.data

/-- Assignment `idx[k] = v` on a JavaScript object modelled as an ordered
association list: an existing key keeps its position and gets the new
value, a new key is appended. -/
def setIdx (idx : List (String × Entry)) (k : String) (v : Entry) : List (String × Entry) :=
  match idx with
  | [] => [(k, v)]
  | (k₀, v₀) :: rest => if k₀ = k then (k, v) :: rest else (k₀, v₀) :: setIdx rest k v

/-- Property read `idx[k]` on the modelled object. -/
def getIdx (idx : List (String × Entry)) (k : String) : Option Entry :=
  match idx with
  | [] => none
  | (k₀, v₀) :: rest => if k₀ = k then some v₀ else getIdx rest k

/-- Outcome of one `fs.unlink` call: success, the file was already gone
(ENOENT), or some other error. -/
inductive UnlinkRes where
  | ok
  | enoent
  | fail
deriving DecidableEq

/-- External collaborators of one sync pass.  `fetchDetails` models
getFileDetails applied to `shortcutDetails?.targetId`: a thin wrapper over
`drive.files.get`, which resolves with the file's metadata or rejects
(an error, the thrown exception) when the target is missing or
inaccessible — it never resolves with a falsy value.  `fetchDoc` models
getGoogleDocAsJson together with the write of the fetched content; an
error value is the exception a failed fetch or write raises.  `unlink`
gives the outcome `fs.unlink` produces for a given file name during
pruning. -/
structure Env where
  fetchDetails : Option String → Except Unit RemoteItem
  fetchDoc : String → Except Unit Unit
  unlink : String → UnlinkRes

/-- The resolved form of a shortcut: its own identity with the target's
mimeType and modifiedTime spliced in. -/
def resolvedAs (item target : RemoteItem) : RemoteItem :=
  { item with mimeType := target.mimeType, modifiedTime := target.modifiedTime }

/-- Shortcut resolution, the first half of the item loop.  A non-shortcut
passes through with `downloadId = id`.  For a shortcut the target is
looked up in the in-pass map and, failing that, fetched out-of-band with
getFileDetails, whose rejection (`Except.error`) propagates out of the
iteration uncaught.  The source then re-checks the result for falsiness
(`if (!targetItem) ... continue`, the `.ok none` outcome here); since a
successful `drive.files.get` always resolves with an object while an
unfindable target makes it reject, that skip branch is unreachable —
failure to find the target surfaces as the thrown error instead.  A found
target yields the shortcut record with the target's `mimeType` and
`modifiedTime` spliced in, paired with the target's id as the downloadId. -/
def resolveShortcut (items : List RemoteItem) (env : Env) (item : RemoteItem) :
    Except Unit (Option (RemoteItem × String)) :=
  if item.mimeType = shortcutMime then
    let found :=
      match item.shortcutTargetId.bind (findItem items) with
      | some t => Except.ok (some t)
      | none =>
        match env.fetchDetails item.shortcutTargetId with
        | .error e => Except.error e
        | .ok t => Except.ok (some t)
    match found with
    | .error e => .error e
    | .ok none => .ok none
    | .ok (some target) => .ok (some (resolvedAs item target, target.id))
  else
    .ok (some (item, item.id))

/-- The index record the loop writes at `newIndex[fullPath]`: the
downloadId is stored in the `id` field, the remaining fields come from the
resolved item. -/
def mkEntry (iti : RemoteItem) (downloadId : String) : Entry :=
  { id := downloadId
    name := iti.name
    mimeType := iti.mimeType
    modifiedTime := iti.modifiedTime
    parent := iti.parents.bind List.head? }

/-- Download decision for a resolved doc/sheet item:
`!localItem || itemToIndex.modifiedTime > localItem.modifiedTime || isMissingLocally`,
where the local content file is `{downloadId}.json` in the docs
directory. -/
def needsDownload (prevIndex : List (String × Entry)) (docs : List String)
    (modifiedTime downloadId fullPath : String) : Bool :=
  match getIdx prevIndex fullPath with
  | none => true
  | some localItem =>
    jsGt modifiedTime localItem.modifiedTime || !(docs.contains (downloadId ++ ".json"))

/-- Mutable state threaded through the item loop: the index under
construction, the file names present in the docs directory, and the
downloads performed so far, each logged as
(remote item id, downloadId, fullPath). -/
structure LoopSt where
  newIndex : List (String × Entry)
  docs : List String
  log : List (String × String × String)
deriving DecidableEq

/-- Effect of `fs.writeFile` into the docs directory: the file name becomes
present (overwriting leaves the set of names unchanged). -/
def addFile (docs : List String) (f : String) : List String :=
  if docs.contains f then docs else docs ++ [f]

/-- One iteration of the item loop of syncFiles: shortcut resolution, the
supported-type filter, path resolution, the index write, the download
decision, and the download itself.  An `Except.error` is an exception
escaping the iteration (a rejected out-of-band shortcut-target fetch, a
failed document fetch/write, or the stack overflow of an unresolvable
path); the loop body has no try/catch of its own, so such an exception
propagates to the pass-level catch. -/
def processItem (env : Env) (items : List RemoteItem) (rootId : String)
    (prevIndex : List (String × Entry)) (fuel : Nat) (st : LoopSt)
    (remoteItem : RemoteItem) : Except Unit LoopSt :=
  match resolveShortcut items env remoteItem with
  | .error e => .error e
  | .ok none => .ok st
  | .ok (some (itemToIndex, downloadId)) =>
    if itemToIndex.mimeType = docMime ∨ itemToIndex.mimeType = sheetMime ∨
        itemToIndex.mimeType = folderMime then
      match buildPathF items rootId fuel itemToIndex.id with
      | none => .error ()
      | some fullPath =>
        let st₁ : LoopSt :=
          { st with newIndex := setIdx st.newIndex fullPath (mkEntry itemToIndex downloadId) }
        if (itemToIndex.mimeType = docMime ∨ itemToIndex.mimeType = sheetMime) ∧
            needsDownload prevIndex st₁.docs itemToIndex.modifiedTime downloadId fullPath
              = true then
          if itemToIndex.mimeType = docMime then
            match env.fetchDoc downloadId with
            | .error e => .error e
            | .ok _ =>
              .ok { st₁ with docs := addFile st₁.docs (downloadId ++ ".json")
                             log := st₁.log ++ [(remoteItem.id, downloadId, fullPath)] }
          else
            .ok { st₁ with docs := addFile st₁.docs (downloadId ++ ".json")
                           log := st₁.log ++ [(remoteItem.id, downloadId, fullPath)] }
        else .ok st₁
    else .ok st

/-- The item loop.  The loop runs inside the single pass-level try block,
so the first uncaught exception stops it: the remaining items are not
processed and the flag `true` records that the pass aborted. -/
def processItems (env : Env) (items : List RemoteItem) (rootId : String)
    (prevIndex : List (String × Entry)) (fuel : Nat) :
    List RemoteItem → LoopSt → LoopSt × Bool
  | [], st => (st, false)
  | item :: rest, st =>
    match processItem env items rootId prevIndex fuel st item with
    | .error _ => (st, true)
    | .ok st₁ => processItems env items rootId prevIndex fuel rest st₁

/-- Test whether one list of characters begins with another. -/
def listStartsWith : List Char → List Char → Bool
  | [], _ => true
  | _ :: _, [] => false
  | p :: ps, c :: cs => p == c && listStartsWith ps cs

/-- JavaScript `String.endsWith`, computed on character lists (the library
`String.endsWith` is extensionally the same but does not reduce inside the
kernel, which the concrete scenarios below need). -/
def strEndsWith (s pat : String) : Bool :=
  listStartsWith pat.data.reverse s.data.reverse

/-- JavaScript `String.replace` with a plain-string pattern: only the first
occurrence is replaced (here, removed), as in
`localFile.replace('.json', '')`. -/
def replFirst (pat : List Char) : List Char → List Char
  | [] => []
  | c :: cs =>
    if listStartsWith pat (c :: cs) then (c :: cs).drop pat.length
    else c :: replFirst pat cs

/-- Derivation of a file id from a cached file name, exactly as the source
computes it. -/
def deriveId (f : String) : String :=
  String.mk (replFirst ".json".data f.data)

/-- Embedding of pruneStaleFiles: every file of the docs directory whose
name ends in `.json` and whose derived id is not required has its deletion
attempted; ENOENT is treated as success, any other deletion error is
logged and the scan continues.  The result is the pair of the remaining
file names and the file names whose deletion was attempted. -/
def pruneStaleFiles (required : List String) (unlink : String → UnlinkRes) :
    List String → List String × List String
  | [] => ([], [])
  | f :: rest =>
    let r := pruneStaleFiles required unlink rest
    if strEndsWith f ".json" then
      if required.contains (deriveId f) then (f :: r.1, r.2)
      else
        match unlink f with
        | .ok => (r.1, f :: r.2)
        | .enoent => (r.1, f :: r.2)
        | .fail => (f :: r.1, f :: r.2)
    else (f :: r.1, r.2)

/-- The required-id set: the `id` (downloadId) of every non-folder entry of
the freshly built index. -/
def requiredIds (idx : List (String × Entry)) : List String :=
  ((idx.map Prod.snd).filter (fun e => e.mimeType != folderMime)).map Entry.id

/-- Observable outcome of one syncFiles pass: the content of the persisted
index file after the pass, the file names in the docs directory, whether
the syncComplete signal was emitted, whether an exception reached the
pass-level catch, and the downloads performed in order. -/
structure PassOut where
  index : List (String × Entry)
  docs : List String
  emitted : Bool
  aborted : Bool
  log : List (String × String × String)
deriving DecidableEq

/-- Embedding of one syncFiles pass over a given remote listing, previous
index and docs-directory content.  An empty listing short-circuits: the
index file is overwritten with the empty object, syncComplete is emitted,
and neither the item loop nor the pruner runs.  Otherwise the item loop
runs; if it aborts, the pass-level catch fires: the previous index file is
left untouched, nothing more is downloaded, the pruner does not run and no
signal is emitted (content files written before the failure remain).  On
completion the pruner removes stale files, the new index is persisted and
syncComplete is emitted.  The fuel `length + 2` bounds the recursion depth
of every parent chain that does not revisit an id, so exhausting it models
the stack overflow a cyclic chain produces. -/
def syncFiles (env : Env) (rootId : String) (remoteItems : List RemoteItem)
    (prevIndex : List (String × Entry)) (docs₀ : List String) : PassOut :=
  if remoteItems.isEmpty then
    { index := [], docs := docs₀, emitted := true, aborted := false, log := [] }
  else
    let fuel := remoteItems.length + 2
    let r :=
      processItems env remoteItems rootId prevIndex fuel remoteItems
        { newIndex := [], docs := docs₀, log := [] }
    if r.2 then
      { index := prevIndex, docs := r.1.docs, emitted := false, aborted := true,
        log := r.1.log }
    else
      let required := requiredIds r.1.newIndex
      let docs₁ := (pruneStaleFiles required env.unlink r.1.docs).1
      { index := r.1.newIndex, docs := docs₁, emitted := true, aborted := false,
        log := r.1.log }

/-- Whitespace-run collapsing written the way the specification words it
(each maximal run of whitespace becomes one hyphen), with an explicit fuel
bound so the recursion is structural; dropping a nonempty run strictly
shrinks the list, so fuel equal to the length always suffices. -/
def collapseWsFuel : Nat → List Char → List Char
  | 0, _ => []
  | _ + 1, [] => []
  | n + 1, c :: rest =>
    if isJsWs c then '-' :: collapseWsFuel n (rest.dropWhile (fun d => isJsWs d))
    else c :: collapseWsFuel n rest

/-- Whitespace-run collapsing: the specification-side counterpart of
`hyphenateWsGo`. -/
def collapseWs (l : List Char) : List Char := collapseWsFuel l.length l

/-- The slug as claim C6 states it: the lowercase/hyphenate/strip pipeline,
with a fallback to `untitled` for an empty or whitespace-only name. -/
def slugClaimC6 (name : String) : String :=
  if name.data.all (fun c => isJsWs c) then "untitled"
  else String.mk (stripNonSlug (collapseWs (name.data.map Char.toLower)))

/-- The slug as the amended claim states it: the same pipeline, with the
fallback only for the empty name (the only falsy string). -/
def slugSpec (name : String) : String :=
  if name = "" then "untitled"
  else String.mk (stripNonSlug (collapseWs (name.data.map Char.toLower)))

/-- Specification-side derivation of a file id as claim C7 words it: the
file name minus its `.json` extension (the extension is five characters). -/
def stripJsonExt (s : String) : String :=
  if strEndsWith s ".json" then String.mk (s.data.take (s.data.length - 5)) else s

/-- The parent chain starting at `itemId` reaches one of buildPath's base
cases (missing item, absent `parents` field, first parent equal to the
root, or empty parents array) within `n` visited stack frames. -/
def chainReaches (items : List RemoteItem) (rootId : String) : Nat → String → Bool
  | 0, _ => false
  | n + 1, itemId =>
    match findItem items itemId with
    | none => true
    | some item =>
      match item.parents with
      | none => true
      | some ps =>
        if ps.head? = some rootId then true
        else
          match ps.head? with
          | none => decide (n ≠ 0)
          | some parentId => chainReaches items rootId n parentId

/-- The path computation never returns a result for this item, however much
stack is available: the model of unbounded recursion on a corrupt parent
chain. -/
def buildPathDiverges (items : List RemoteItem) (rootId itemId : String) : Prop :=
  ∀ fuel, buildPathF items rootId fuel itemId = none

/-- An index entry produced by the pass from some listed item: it is
exactly `mkEntry` of a resolved item, so its `id` field holds the
downloadId. -/
def entryFromPass (env : Env) (items : List RemoteItem) (e : Entry) : Prop :=
  ∃ item iti dl, item ∈ items ∧
    resolveShortcut items env item = .ok (some (iti, dl)) ∧ e = mkEntry iti dl

/-- A self-referential item: its only parent is itself, so its parent chain
never reaches a base case. -/
def cycItem : RemoteItem :=
  { id := "a", name := "a", mimeType := docMime, modifiedTime := "t",
    parents := some ["a"], shortcutTargetId := none }

/-- A plain document directly under the root, used in concrete scenarios. -/
def itemA : RemoteItem :=
  { id := "A", name := "a", mimeType := docMime, modifiedTime := "2",
    parents := some ["root"], shortcutTargetId := none }

/-- A second plain document directly under the root. -/
def itemB : RemoteItem :=
  { id := "B", name := "b", mimeType := docMime, modifiedTime := "2",
    parents := some ["root"], shortcutTargetId := none }

/-- An environment in which every content fetch and deletion succeeds and
no out-of-band target exists: the single-file metadata fetch rejects, as
`drive.files.get` does for an unfindable id. -/
def envOk : Env :=
  { fetchDetails := fun _ => .error ()
    fetchDoc := fun _ => .ok ()
    unlink := fun _ => .ok }

/-- An environment in which fetching document A fails and every other
content fetch and deletion succeeds (no out-of-band target exists). -/
def envFailA : Env :=
  { fetchDetails := fun _ => .error ()
    fetchDoc := fun fid => if fid = "A" then .error () else .ok ()
    unlink := fun _ => .ok }

/-- A previous index holding one unrelated entry, used to observe whether a
pass overwrites the index file. -/
def prevC1 : List (String × Entry) :=
  [("/old", { id := "Z", name := "old", mimeType := docMime, modifiedTime := "1",
              parent := some "root" })]

/-- A shortcut named Report sitting directly under the root and pointing at
a target outside the scanned tree. -/
def shortcutS : RemoteItem :=
  { id := "S", name := "Report", mimeType := shortcutMime, modifiedTime := "s",
    parents := some ["root"], shortcutTargetId := some "X" }

/-- The document the shortcut points at; it lives outside the scanned tree,
so only the out-of-band fetch can find it. -/
def targetX : RemoteItem :=
  { id := "X", name := "Real Report", mimeType := docMime, modifiedTime := "2024",
    parents := some ["elsewhere"], shortcutTargetId := none }

/-- An environment whose out-of-band fetch knows the document X (and
rejects for any other id), and in which every content fetch and deletion
succeeds. -/
def envFetchX : Env :=
  { fetchDetails := fun t => if t = some "X" then .ok targetX else .error ()
    fetchDoc := fun _ => .ok ()
    unlink := fun _ => .ok }

/-- A shortcut whose target exists neither in the scanned tree nor through
the out-of-band fetch. -/
def shortcutBroken : RemoteItem :=
  { id := "S2", name := "Dead", mimeType := shortcutMime, modifiedTime := "s",
    parents := some ["root"], shortcutTargetId := some "nope" }


/-! Helper lemmas shared by the claim theorems. -/

/-- Appending one element changes a list. -/
theorem append_singleton_ne {α : Type} (l : List α) (a : α) : l ++ [a] ≠ l := by
  intro h
  have := congrArg List.length h
  simp at this

/-- Reading back an object after an assignment: the assigned key yields the
new value, every other key is unaffected. -/
theorem getIdx_setIdx (idx : List (String × Entry)) (k k' : String) (v : Entry) :
    getIdx (setIdx idx k v) k' = if k = k' then some v else getIdx idx k' := by
  induction idx with
  | nil => simp [setIdx, getIdx]
  | cons kv rest ih =>
    obtain ⟨k₀, v₀⟩ := kv
    by_cases h₀ : k₀ = k
    · subst h₀
      by_cases h₁ : k₀ = k'
      · subst h₁
        simp [setIdx, getIdx]
      · simp [setIdx, getIdx, h₁]
    · by_cases h₁ : k₀ = k'
      · subst h₁
        have hne : ¬(k = k₀) := fun h => h₀ h.symm
        simp [setIdx, getIdx, h₀, hne]
      · simp [setIdx, getIdx, h₀, h₁, ih]

/-- Filter characterization of the prune scan: a file survives exactly when
it is not a deletion candidate or its deletion failed with a non-ENOENT
error, and deletion is attempted exactly on the candidates. -/
theorem pruneStaleFiles_eq (required : List String) (unlink : String → UnlinkRes)
    (files : List String) :
    pruneStaleFiles required unlink files =
      (files.filter (fun f =>
          !(strEndsWith f ".json") || required.contains (deriveId f) ||
            decide (unlink f = UnlinkRes.fail)),
       files.filter (fun f =>
          strEndsWith f ".json" && !(required.contains (deriveId f)))) := by
  induction files with
  | nil => rfl
  | cons f rest ih =>
    cases h₁ : strEndsWith f ".json" with
    | false => simp [pruneStaleFiles, ih, h₁, List.filter_cons]
    | true =>
      by_cases h₂ : deriveId f ∈ required
      · simp [pruneStaleFiles, ih, h₁, h₂, List.filter_cons]
      · cases h₃ : unlink f <;>
          simp [pruneStaleFiles, ih, h₁, h₂, h₃, List.filter_cons]

/-- C3: if the remote listing is empty, the pass persists an empty index in
place of the previous one, emits the sync-complete signal, and does not
treat the situation as an error (nothing is aborted, nothing downloaded). -/
theorem emptyListingClearsIndex (env : Env) (rootId : String)
    (prevIndex : List (String × Entry)) (docs₀ : List String) :
    syncFiles env rootId [] prevIndex docs₀ =
      { index := [], docs := docs₀, emitted := true, aborted := false, log := [] } := rfl

/-- C10: the empty-listing short-circuit leaves every cached content file
untouched, even though the index is replaced by an empty map; had the
pruner been invoked with the requiredIds of the empty index, it would have
deleted every content file, so the short-circuit indeed skips it. -/
theorem emptyListingSkipsPruner (env : Env) (rootId : String)
    (prevIndex : List (String × Entry)) (docs₀ : List String) :
    (syncFiles env rootId [] prevIndex docs₀).docs = docs₀ ∧
    (pruneStaleFiles (requiredIds []) (fun _ => UnlinkRes.ok) docs₀).1 =
      docs₀.filter (fun f => !(strEndsWith f ".json")) := by
  refine ⟨rfl, ?_⟩
  rw [show requiredIds [] = [] from rfl, pruneStaleFiles_eq]
  simp

/-- C6 counterexample: a whitespace-only name is truthy in JavaScript, so it
does not fall back to untitled; the whitespace run becomes a single hyphen,
which survives the strip, giving the slug "-" where the claim predicts
"untitled". -/
theorem whitespaceNameSlug :
    slugClaimC6 " " = "untitled" ∧ slugify " " = "-" ∧ ("-" : String) ≠ "untitled" := by
  refine ⟨rfl, rfl, by decide⟩

/-- Inside a whitespace run the state machine skips the remaining
whitespace: running with the flag set equals dropping the run first. -/
theorem hyphenateWsGo_true (l : List Char) :
    hyphenateWsGo true l = hyphenateWsGo false (l.dropWhile (fun d => isJsWs d)) := by
  induction l with
  | nil => rfl
  | cons c rest ih =>
    cases h : isJsWs c with
    | true => simpa [hyphenateWsGo, List.dropWhile, h] using ih
    | false => simp [hyphenateWsGo, List.dropWhile, h]

/-- The state machine agrees with the fuelled run-at-a-time formulation for
any sufficient fuel. -/
theorem hyphenateWsGo_eq_collapseWsFuel :
    ∀ (n : Nat) (l : List Char), l.length ≤ n →
      hyphenateWsGo false l = collapseWsFuel n l := by
  intro n
  induction n with
  | zero =>
    intro l h
    match l, h with
    | [], _ => rfl
  | succ n ih =>
    intro l h
    match l with
    | [] => rfl
    | c :: rest =>
      have hr : rest.length ≤ n := by
        simp only [List.length_cons] at h
        omega
      cases hw : isJsWs c with
      | true =>
        have hd : (rest.dropWhile (fun d => isJsWs d)).length ≤ n :=
          le_trans (List.dropWhile_suffix _).sublist.length_le hr
        simp only [collapseWsFuel, hw, if_true]
        rw [show hyphenateWsGo false (c :: rest) = '-' :: hyphenateWsGo true rest from by
              simp [hyphenateWsGo, hw],
            hyphenateWsGo_true]
        exact congrArg _ (ih _ hd)
      | false =>
        simp only [collapseWsFuel, hw, if_false]
        rw [show hyphenateWsGo false (c :: rest) = c :: hyphenateWsGo false rest from by
              simp [hyphenateWsGo, hw]]
        exact congrArg _ (ih _ hr)

/-- The state-machine replacement of whitespace runs agrees with the
run-at-a-time formulation the specification uses. -/
theorem hyphenateWsGo_eq_collapseWs (l : List Char) :
    hyphenateWsGo false l = collapseWs l :=
  hyphenateWsGo_eq_collapseWsFuel l.length l le_rfl

/-- C6 (amended): the slug is the name lowercased, with every whitespace run
replaced by a single hyphen and every character outside [a-z0-9-] removed;
the untitled fallback applies exactly to the empty name (the only falsy
name), so a whitespace-only name yields "-" rather than "untitled". -/
theorem slugifyCharacterization (name : String) : slugify name = slugSpec name := by
  by_cases h : name = ""
  · subst h; rfl
  · simp only [slugify, slugSpec, h, if_neg h, if_false]
    rw [hyphenateWsGo_eq_collapseWs]

/-- C7 counterexample: for the cached file name a.jsonb.json, the id the
claim derives (name minus the .json extension) is a.jsonb, yet with
requiredIds = set containing a.jsonb the scan still deletes the file,
because the code removes the first occurrence of .json rather than the
extension. -/
theorem pruneDeletesRequiredFile :
    stripJsonExt "a.jsonb.json" = "a.jsonb" ∧
    List.contains ["a.jsonb"] (stripJsonExt "a.jsonb.json") = true ∧
    (pruneStaleFiles ["a.jsonb"] (fun _ => UnlinkRes.ok) ["a.jsonb.json"]).1 = [] := by
  refine ⟨by decide, by decide, by decide⟩

/-- C7 (amended): prune deletes exactly the cached files ending in .json
whose derived id (the file name with its first occurrence of .json removed,
which equals the name minus the extension whenever .json occurs only as the
extension) is not in requiredIds; a file whose derived id is required is
never deleted; an already-missing file (ENOENT) is treated like a
successful deletion; any other deletion error leaves that file but the scan
continues over all remaining files. -/
theorem pruneExactness (required : List String) (unlink : String → UnlinkRes)
    (files : List String) :
    (pruneStaleFiles required unlink files).1 =
      files.filter (fun f =>
        !(strEndsWith f ".json") || required.contains (deriveId f) ||
          decide (unlink f = UnlinkRes.fail)) ∧
    (pruneStaleFiles required unlink files).2 =
      files.filter (fun f => strEndsWith f ".json" && !(required.contains (deriveId f))) ∧
    ∀ f, f ∈ files → deriveId f ∈ required →
      f ∈ (pruneStaleFiles required unlink files).1 := by
  refine ⟨by rw [pruneStaleFiles_eq], by rw [pruneStaleFiles_eq], ?_⟩
  intro f hf hreq
  rw [pruneStaleFiles_eq]
  exact List.mem_filter.mpr ⟨hf, by simp [hreq]⟩

/-- Witness for the prune theorem: in a concrete scan, the file whose
derived id is required survives. -/
theorem pruneExactness_witness :
    ("K.json" ∈ (["K.json", "L.json"] : List String)) ∧
    deriveId "K.json" ∈ (["K"] : List String) ∧
    "K.json" ∈ (pruneStaleFiles ["K"] (fun _ => UnlinkRes.ok) ["K.json", "L.json"]).1 :=
  ⟨by decide, by decide,
    (pruneExactness ["K"] (fun _ => UnlinkRes.ok) ["K.json", "L.json"]).2.2 "K.json"
      (by decide) (by decide)⟩


/-- C9 counterexample: on an item whose only parent is itself, the path
computation never returns, whatever fuel (stack) is available — buildPath
has no depth guard or cycle set, so a self-referential parent chain
recurses without bound. -/
theorem buildPathCycleDiverges : buildPathDiverges [cycItem] "root" "a" := by
  intro fuel
  induction fuel with
  | zero => rfl
  | succ n ih =>
    have hstep : buildPathF [cycItem] "root" (n + 1) "a" =
        (buildPathF [cycItem] "root" n "a").map
          (fun pp => posixJoin pp (slugify cycItem.name)) := rfl
    rw [hstep, ih]
    rfl

/-- C9 (amended): path resolution terminates exactly on well-founded
inputs: whenever the parent chain from an item reaches one of buildPath's
base cases within the available stack frames, the computation returns a
result; a corrupt self-referential chain instead never returns (see the
counterexample), since the code has no cycle protection. -/
theorem buildPathTerminates (items : List RemoteItem) (rootId : String) :
    ∀ (n : Nat) (itemId : String), chainReaches items rootId n itemId = true →
      ∃ p, buildPathF items rootId n itemId = some p := by
  intro n
  induction n with
  | zero =>
    intro itemId h
    simp [chainReaches] at h
  | succ n ih =>
    intro itemId h
    simp only [chainReaches] at h
    simp only [buildPathF]
    cases hf : findItem items itemId with
    | none => simp [hf]
    | some item =>
      simp only [hf] at h ⊢
      cases hp : item.parents with
      | none => simp [hp]
      | some ps =>
        simp only [hp] at h ⊢
        by_cases hroot : ps.head? = some rootId
        · simp [hroot]
        · simp only [hroot, if_false, if_neg hroot] at h ⊢
          cases hh : ps.head? with
          | none =>
            simp only [hh] at h ⊢
            have hn : n ≠ 0 := of_decide_eq_true h
            match n, hn with
            | m + 1, _ => exact ⟨_, rfl⟩
          | some parentId =>
            simp only [hh] at h ⊢
            obtain ⟨p, hp2⟩ := ih parentId h
            exact ⟨_, by rw [hp2]; rfl⟩

/-- Witness: the one-step chain of a root-level document terminates and
yields a path. -/
theorem buildPathTerminates_witness :
    chainReaches [itemB] "root" 1 "B" = true ∧
    ∃ p, buildPathF [itemB] "root" 1 "B" = some p :=
  ⟨by decide, buildPathTerminates [itemB] "root" 1 "B" (by decide)⟩

/-- C1 counterexample: with two new documents A and B and a download
failure on A, the pass aborts — B's download is never attempted, the new
index is not persisted (the previous index survives unchanged) and no
sync-complete signal is emitted; the last conjunct shows that in the very
same scenario without the failure both documents are downloaded, so it is
A's failure that suppressed B's download. -/
theorem downloadFailureAbortsConcretely :
    (syncFiles envFailA "root" [itemA, itemB] prevC1 []).emitted = false ∧
    (syncFiles envFailA "root" [itemA, itemB] prevC1 []).aborted = true ∧
    (syncFiles envFailA "root" [itemA, itemB] prevC1 []).index = prevC1 ∧
    (syncFiles envFailA "root" [itemA, itemB] prevC1 []).log = [] ∧
    (syncFiles envOk "root" [itemA, itemB] prevC1 []).log =
      [("A", "A", "/a"), ("B", "B", "/b")] := by
  refine ⟨rfl, rfl, rfl, rfl, rfl⟩

/-- C1 (amended): a download failure for one item aborts the remainder of
the pass — the items after the failing one are not processed at all, and
once the pass is aborted the previous index file is left untouched and no
sync-complete signal is emitted (the exception is contained by the
pass-level catch, so only the pass, not the process, stops). -/
theorem downloadFailureAbortsPass :
    (∀ (env : Env) (items : List RemoteItem) (rootId : String)
        (prevIndex : List (String × Entry)) (fuel : Nat) (st : LoopSt)
        (item : RemoteItem) (rest : List RemoteItem),
        processItem env items rootId prevIndex fuel st item = .error () →
        processItems env items rootId prevIndex fuel (item :: rest) st = (st, true)) ∧
    (∀ (env : Env) (rootId : String) (items : List RemoteItem)
        (prevIndex : List (String × Entry)) (docs₀ : List String),
        (syncFiles env rootId items prevIndex docs₀).aborted = true →
        (syncFiles env rootId items prevIndex docs₀).index = prevIndex ∧
        (syncFiles env rootId items prevIndex docs₀).emitted = false) := by
  constructor
  · intro env items rootId prevIndex fuel st item rest h
    simp [processItems, h]
  · intro env rootId items prevIndex docs₀ h
    by_cases he : items.isEmpty = true
    · simp [syncFiles, he] at h
    · cases hab : (processItems env items rootId prevIndex (items.length + 2) items
          { newIndex := [], docs := docs₀, log := [] }).2 with
      | false => simp [syncFiles, he, hab] at h
      | true => simp [syncFiles, he, hab]

/-- Witness for the abort theorem: both parts applied to the concrete
failing scenario. -/
theorem downloadFailureAbortsPass_witness :
    (processItems envFailA [itemA] "root" [] 3 [itemA]
        { newIndex := [], docs := [], log := [] } =
      ({ newIndex := [], docs := [], log := [] }, true)) ∧
    (syncFiles envFailA "root" [itemA, itemB] prevC1 []).index = prevC1 ∧
    (syncFiles envFailA "root" [itemA, itemB] prevC1 []).emitted = false :=
  ⟨downloadFailureAbortsPass.1 envFailA [itemA] "root" [] 3
      { newIndex := [], docs := [], log := [] } itemA [] (by rfl),
   (downloadFailureAbortsPass.2 envFailA "root" [itemA, itemB] prevC1 [] (by rfl)).1,
   (downloadFailureAbortsPass.2 envFailA "root" [itemA, itemB] prevC1 [] (by rfl)).2⟩


/-- Lookup form of the download condition: it holds exactly when there is
no previous entry at the path, or the resolved modification time is
strictly greater than the previous entry's in the string order, or the
content file is absent. -/
theorem needsDownload_iff (prevIndex : List (String × Entry)) (docs : List String)
    (mt dl p : String) :
    needsDownload prevIndex docs mt dl p = true ↔
      (getIdx prevIndex p = none ∨
       (∃ le, getIdx prevIndex p = some le ∧ jsGt mt le.modifiedTime = true) ∨
       docs.contains (dl ++ ".json") = false) := by
  cases h : getIdx prevIndex p with
  | none => simp [needsDownload, h]
  | some le => simp [needsDownload, h]

/-- Shape of a successful loop iteration for a supported item whose path
resolves and whose fetch (if any) succeeds: the index always receives the
entry, and the download (content write plus log line) happens exactly when
the item is a doc/sheet satisfying the download condition. -/
theorem processItem_ok_shape (env : Env) (items : List RemoteItem) (rootId : String)
    (prevIndex : List (String × Entry)) (fuel : Nat) (st : LoopSt)
    (item iti : RemoteItem) (dl p : String)
    (hres : resolveShortcut items env item = .ok (some (iti, dl)))
    (hsup : iti.mimeType = docMime ∨ iti.mimeType = sheetMime ∨
            iti.mimeType = folderMime)
    (hpath : buildPathF items rootId fuel iti.id = some p)
    (hfetch : env.fetchDoc dl = .ok ()) :
    processItem env items rootId prevIndex fuel st item =
      .ok (if (iti.mimeType = docMime ∨ iti.mimeType = sheetMime) ∧
              needsDownload prevIndex st.docs iti.modifiedTime dl p = true then
             { newIndex := setIdx st.newIndex p (mkEntry iti dl)
               docs := addFile st.docs (dl ++ ".json")
               log := st.log ++ [(item.id, dl, p)] }
           else
             { st with newIndex := setIdx st.newIndex p (mkEntry iti dl) }) := by
  simp only [processItem, hres]
  rw [if_pos hsup]
  simp only [hpath]
  by_cases hc : (iti.mimeType = docMime ∨ iti.mimeType = sheetMime) ∧
      needsDownload prevIndex st.docs iti.modifiedTime dl p = true
  · simp only [if_pos hc]
    rcases hc with ⟨hds, hnd⟩
    rcases hds with hdoc | hsheet
    · rw [if_pos hdoc, hfetch]
    · have hnotdoc : ¬(iti.mimeType = docMime) := by
        rw [hsheet]
        decide
      rw [if_neg hnotdoc]
  · simp only [if_neg hc]

/-- C2: a resolved doc/sheet item whose path resolves, processed in a pass
where its fetch succeeds, is downloaded (content file written and download
logged) if and only if no previous entry exists at its path, or its
resolved modifiedTime is strictly greater than the previous entry's under
string comparison, or its content file is absent at that moment; in
particular, with an unchanged modifiedTime and an existing content file it
is not downloaded. -/
theorem downloadDecision (env : Env) (items : List RemoteItem) (rootId : String)
    (prevIndex : List (String × Entry)) (fuel : Nat) (st : LoopSt)
    (item iti : RemoteItem) (dl p : String)
    (hres : resolveShortcut items env item = .ok (some (iti, dl)))
    (htype : iti.mimeType = docMime ∨ iti.mimeType = sheetMime)
    (hpath : buildPathF items rootId fuel iti.id = some p)
    (hfetch : env.fetchDoc dl = .ok ()) :
    ∃ st₁, processItem env items rootId prevIndex fuel st item = .ok st₁ ∧
      st₁.newIndex = setIdx st.newIndex p (mkEntry iti dl) ∧
      (st₁.log = st.log ++ [(item.id, dl, p)] ∨ st₁.log = st.log) ∧
      (st₁.log = st.log ++ [(item.id, dl, p)] ∧
         st₁.docs = addFile st.docs (dl ++ ".json") ↔
       getIdx prevIndex p = none ∨
       (∃ le, getIdx prevIndex p = some le ∧ jsGt iti.modifiedTime le.modifiedTime = true) ∨
       st.docs.contains (dl ++ ".json") = false) := by
  have hsup : iti.mimeType = docMime ∨ iti.mimeType = sheetMime ∨
      iti.mimeType = folderMime := htype.elim Or.inl (fun h => Or.inr (Or.inl h))
  rw [processItem_ok_shape env items rootId prevIndex fuel st item iti dl p
    hres hsup hpath hfetch]
  by_cases hnd : needsDownload prevIndex st.docs iti.modifiedTime dl p = true
  · rw [if_pos ⟨htype, hnd⟩]
    refine ⟨_, rfl, rfl, Or.inl rfl, ?_⟩
    simp only [true_and]
    constructor
    · intro _
      exact (needsDownload_iff prevIndex st.docs iti.modifiedTime dl p).mp hnd
    · intro _
      trivial
  · rw [if_neg (fun hc => hnd hc.2)]
    refine ⟨_, rfl, rfl, Or.inr rfl, ?_⟩
    constructor
    · intro ⟨hlog, _⟩
      exact absurd hlog.symm (append_singleton_ne st.log (item.id, dl, p))
    · intro hrhs
      exact absurd ((needsDownload_iff prevIndex st.docs iti.modifiedTime dl p).mpr hrhs) hnd

/-- Witness for the download decision: a fresh document under the root with
no previous entry is downloaded. -/
theorem downloadDecision_witness :
    ∃ st₁,
      processItem envOk [itemB] "root" [] 3 { newIndex := [], docs := [], log := [] }
          itemB = .ok st₁ ∧
      st₁.newIndex = setIdx [] "/b" (mkEntry itemB "B") ∧
      (st₁.log = [] ++ [(itemB.id, "B", "/b")] ∨ st₁.log = []) ∧
      (st₁.log = [] ++ [(itemB.id, "B", "/b")] ∧
         st₁.docs = addFile [] ("B" ++ ".json") ↔
       getIdx [] "/b" = none ∨
       (∃ le, getIdx [] "/b" = some le ∧ jsGt itemB.modifiedTime le.modifiedTime = true) ∨
       List.contains [] ("B" ++ ".json") = false) :=
  downloadDecision envOk [itemB] "root" [] 3 { newIndex := [], docs := [], log := [] }
    itemB itemB "B" "/b" rfl (Or.inl rfl) (by rfl) rfl


/-- C4 counterexample: a pass containing one shortcut whose target is
neither listed in-pass nor findable out-of-band does not skip the shortcut
and carry on — `drive.files.get` rejects for an unfindable target, so the
exception escapes the item loop and aborts the pass at the pass-level
catch: no sync-complete signal, the previous index file untouched, nothing
downloaded, contradicting the claim's skip-and-continue with no exception
escaping. -/
theorem shortcutFetchFailureAborts :
    (syncFiles envOk "root" [shortcutBroken] prevC1 []).aborted = true ∧
    (syncFiles envOk "root" [shortcutBroken] prevC1 []).emitted = false ∧
    (syncFiles envOk "root" [shortcutBroken] prevC1 []).index = prevC1 ∧
    (syncFiles envOk "root" [shortcutBroken] prevC1 []).log = [] := by
  refine ⟨rfl, rfl, rfl, rfl⟩

/-- C4 (amended): a shortcut whose target is not in the in-pass item map
triggers one out-of-band fetch; when the target cannot be found that fetch
rejects and the exception escapes the item loop uncaught — the iteration
errors, and the pass aborts at the pass-level catch: the shortcut is not
indexed, no download occurs for it, the previous index file is left
untouched and no sync-complete signal is emitted (only the pass dies; the
error is logged and the next pass is scheduled).  The source's falsy-result
skip of the shortcut is dead code: resolution never yields the skip
outcome, since a successful fetch never returns a falsy value. -/
theorem brokenShortcutAbortsPass (env : Env) (rootId : String)
    (prevIndex : List (String × Entry)) (item : RemoteItem)
    (hsc : item.mimeType = shortcutMime)
    (hfetch : env.fetchDetails item.shortcutTargetId = .error ()) :
    (∀ (items : List RemoteItem) (fuel : Nat) (st : LoopSt),
        item.shortcutTargetId.bind (findItem items) = none →
        processItem env items rootId prevIndex fuel st item = .error ()) ∧
    (item.shortcutTargetId.bind (findItem [item]) = none →
      ∀ docs₀ : List String,
        syncFiles env rootId [item] prevIndex docs₀ =
          { index := prevIndex, docs := docs₀, emitted := false, aborted := true,
            log := [] }) ∧
    (∀ (items : List RemoteItem) (env₂ : Env) (it : RemoteItem),
        resolveShortcut items env₂ it ≠ .ok none) := by
  have hres : ∀ items : List RemoteItem,
      item.shortcutTargetId.bind (findItem items) = none →
      resolveShortcut items env item = .error () := by
    intro items hbind
    simp [resolveShortcut, hsc, hbind, hfetch]
  refine ⟨?_, ?_, ?_⟩
  · intro items fuel st hbind
    simp [processItem, hres items hbind]
  · intro hbind docs₀
    have h₁ : processItem env [item] rootId prevIndex 3
        { newIndex := [], docs := docs₀, log := [] } item = .error () := by
      simp [processItem, hres [item] hbind]
    simp [syncFiles, processItems, h₁]
  · intro items env₂ it
    by_cases hmt : it.mimeType = shortcutMime
    · cases hin : it.shortcutTargetId.bind (findItem items) with
      | some t => simp [resolveShortcut, hmt, hin]
      | none =>
        cases hf : env₂.fetchDetails it.shortcutTargetId with
        | error e => simp [resolveShortcut, hmt, hin, hf]
        | ok t => simp [resolveShortcut, hmt, hin, hf]
    · simp [resolveShortcut, hmt]

/-- Witness: the abort theorem applied to the concrete broken shortcut. -/
theorem brokenShortcutAbortsPass_witness :
    shortcutBroken.mimeType = shortcutMime ∧
    envOk.fetchDetails shortcutBroken.shortcutTargetId = .error () ∧
    shortcutBroken.shortcutTargetId.bind (findItem [shortcutBroken]) = none ∧
    processItem envOk [shortcutBroken] "root" [] 3
        { newIndex := [], docs := [], log := [] } shortcutBroken = .error () ∧
    syncFiles envOk "root" [shortcutBroken] [] [] =
      { index := [], docs := [], emitted := false, aborted := true, log := [] } :=
  ⟨rfl, rfl, by decide,
   (brokenShortcutAbortsPass envOk "root" [] shortcutBroken rfl rfl).1
     [shortcutBroken] 3 { newIndex := [], docs := [], log := [] } (by decide),
   (brokenShortcutAbortsPass envOk "root" [] shortcutBroken rfl rfl).2.1 (by decide) []⟩

/-- C5: a shortcut whose target is resolved (in-map or out-of-band) is
rewritten to carry its own id, name and parents with the target's mimeType
and modifiedTime, and a downloadId equal to the target's id; when the
target's type is supported, the entry indexed at the shortcut's computed
path stores the target's id (as the entry id used for the content file),
the shortcut's name and first parent, and the target's mimeType and
modifiedTime — independent of the shortcut's own mimeType. -/
theorem shortcutResolutionEntry (env : Env) (items : List RemoteItem) (rootId : String)
    (prevIndex : List (String × Entry)) (fuel : Nat) (st : LoopSt)
    (item target : RemoteItem) (p : String)
    (hsc : item.mimeType = shortcutMime)
    (htgt : item.shortcutTargetId.bind (findItem items) = some target ∨
            (item.shortcutTargetId.bind (findItem items) = none ∧
             env.fetchDetails item.shortcutTargetId = .ok target))
    (htype : target.mimeType = docMime ∨ target.mimeType = sheetMime ∨
             target.mimeType = folderMime)
    (hpath : buildPathF items rootId fuel item.id = some p)
    (hfetch : env.fetchDoc target.id = .ok ()) :
    resolveShortcut items env item = .ok (some (resolvedAs item target, target.id)) ∧
    ∃ st₁, processItem env items rootId prevIndex fuel st item = .ok st₁ ∧
      getIdx st₁.newIndex p =
        some { id := target.id, name := item.name, mimeType := target.mimeType,
               modifiedTime := target.modifiedTime,
               parent := item.parents.bind List.head? } := by
  have hres : resolveShortcut items env item =
      .ok (some (resolvedAs item target, target.id)) := by
    rcases htgt with h | ⟨h₁, h₂⟩
    · simp [resolveShortcut, resolvedAs, hsc, h]
    · simp [resolveShortcut, resolvedAs, hsc, h₁, h₂]
  refine ⟨hres, ?_⟩
  rw [processItem_ok_shape env items rootId prevIndex fuel st item
    (resolvedAs item target) target.id p hres htype hpath hfetch]
  by_cases hc : (resolvedAs item target).mimeType = docMime ∨
      (resolvedAs item target).mimeType = sheetMime
  · by_cases hnd : needsDownload prevIndex st.docs
        (resolvedAs item target).modifiedTime target.id p = true
    · rw [if_pos ⟨hc, hnd⟩]
      refine ⟨_, rfl, ?_⟩
      rw [getIdx_setIdx]
      simp [mkEntry, resolvedAs]
    · rw [if_neg (fun hh => hnd hh.2)]
      refine ⟨_, rfl, ?_⟩
      rw [getIdx_setIdx]
      simp [mkEntry, resolvedAs]
  · rw [if_neg (fun hh => hc hh.1)]
    refine ⟨_, rfl, ?_⟩
    rw [getIdx_setIdx]
    simp [mkEntry, resolvedAs]

/-- Witness: the concrete shortcut Report pointing out of tree at document
X resolves and is indexed at /report with the target's id and type. -/
theorem shortcutResolutionEntry_witness :
    resolveShortcut [shortcutS] envFetchX shortcutS =
      .ok (some (resolvedAs shortcutS targetX, targetX.id)) ∧
    ∃ st₁, processItem envFetchX [shortcutS] "root" [] 3
        { newIndex := [], docs := [], log := [] } shortcutS = .ok st₁ ∧
      getIdx st₁.newIndex "/report" =
        some { id := targetX.id, name := shortcutS.name, mimeType := targetX.mimeType,
               modifiedTime := targetX.modifiedTime,
               parent := shortcutS.parents.bind List.head? } :=
  shortcutResolutionEntry envFetchX [shortcutS] "root" [] 3
    { newIndex := [], docs := [], log := [] } shortcutS targetX "/report"
    rfl (Or.inr ⟨by decide, by rfl⟩) (Or.inl rfl) (by rfl) rfl

/-- C8 counterexample: for the shortcut S resolving to target X, the
persisted entry at /report has only the five fields
id/name/mimeType/modifiedTime/parent, and its id field holds the target id
X (the downloadId) rather than the shortcut's own identity S; there is no
separate downloadId field. -/
theorem shortcutEntryStoresTargetId :
    (syncFiles envFetchX "root" [shortcutS] [] []).index =
      [("/report", { id := "X", name := "Report", mimeType := docMime,
                     modifiedTime := "2024", parent := some "root" })] ∧
    shortcutS.id = "S" ∧ ("X" : String) ≠ "S" := by
  refine ⟨rfl, rfl, by decide⟩

/-- A successful loop iteration either leaves the index under construction
unchanged or writes exactly one mkEntry record for the resolved item. -/
theorem processItem_newIndex (env : Env) (items : List RemoteItem) (rootId : String)
    (prevIndex : List (String × Entry)) (fuel : Nat) (st : LoopSt)
    (item : RemoteItem) (st₁ : LoopSt)
    (h : processItem env items rootId prevIndex fuel st item = .ok st₁) :
    st₁.newIndex = st.newIndex ∨
      ∃ iti dl p, resolveShortcut items env item = .ok (some (iti, dl)) ∧
        st₁.newIndex = setIdx st.newIndex p (mkEntry iti dl) := by
  simp only [processItem] at h
  cases hres : resolveShortcut items env item with
  | error e =>
    rw [hres] at h
    simp at h
  | ok ropt =>
    match ropt with
    | none =>
      rw [hres] at h
      simp only [Except.ok.injEq] at h
      exact Or.inl (by rw [← h])
    | some (iti, dl) =>
    rw [hres] at h
    simp only at h
    by_cases hsup : iti.mimeType = docMime ∨ iti.mimeType = sheetMime ∨
        iti.mimeType = folderMime
    · rw [if_pos hsup] at h
      cases hpath : buildPathF items rootId fuel iti.id with
      | none =>
        rw [hpath] at h
        simp at h
      | some p =>
        rw [hpath] at h
        simp only at h
        refine Or.inr ⟨iti, dl, p, rfl, ?_⟩
        by_cases hc : (iti.mimeType = docMime ∨ iti.mimeType = sheetMime) ∧
            needsDownload prevIndex st.docs iti.modifiedTime dl p = true
        · rw [if_pos hc] at h
          by_cases hdoc : iti.mimeType = docMime
          · rw [if_pos hdoc] at h
            cases hf : env.fetchDoc dl with
            | error e =>
              rw [hf] at h
              simp at h
            | ok u =>
              rw [hf] at h
              simp only [Except.ok.injEq] at h
              rw [← h]
          · rw [if_neg hdoc] at h
            simp only [Except.ok.injEq] at h
            rw [← h]
        · rw [if_neg hc] at h
          simp only [Except.ok.injEq] at h
          rw [← h]
    · rw [if_neg hsup] at h
      simp only [Except.ok.injEq] at h
      exact Or.inl (by rw [← h])

/-- Every entry the item loop accumulates comes from some listed item via
shortcut resolution and mkEntry. -/
theorem processItems_entryFromPass (env : Env) (items : List RemoteItem) (rootId : String)
    (prevIndex : List (String × Entry)) (fuel : Nat) :
    ∀ (l : List RemoteItem) (st : LoopSt),
      (∀ x, x ∈ l → x ∈ items) →
      (∀ p e, getIdx st.newIndex p = some e → entryFromPass env items e) →
      ∀ p e,
        getIdx (processItems env items rootId prevIndex fuel l st).1.newIndex p = some e →
        entryFromPass env items e := by
  intro l
  induction l with
  | nil =>
    intro st hmem hinv p e h
    simp only [processItems] at h
    exact hinv p e h
  | cons item rest ih =>
    intro st hmem hinv p e h
    simp only [processItems] at h
    cases hpi : processItem env items rootId prevIndex fuel st item with
    | error u =>
      rw [hpi] at h
      exact hinv p e h
    | ok st₂ =>
      rw [hpi] at h
      refine ih st₂ (fun x hx => hmem x (List.mem_cons_of_mem _ hx)) ?_ p e h
      intro q e₂ h₂
      rcases processItem_newIndex env items rootId prevIndex fuel st item st₂ hpi with
        hsame | ⟨iti, dl, pth, hres, hset⟩
      · exact hinv q e₂ (by rw [← hsame]; exact h₂)
      · rw [hset, getIdx_setIdx] at h₂
        by_cases hq : pth = q
        · rw [if_pos hq] at h₂
          have he : e₂ = mkEntry iti dl := by
            injection h₂ with hh
            exact hh.symm
          exact ⟨item, iti, dl, hmem item (List.mem_cons_self _ _), hres, he⟩
        · rw [if_neg hq] at h₂
          exact hinv q e₂ h₂

/-- C8 (amended): every entry of the index persisted by a completed pass is
the mkEntry record of some listed item after shortcut resolution: a record
with exactly the fields id, name, mimeType, modifiedTime and parent, whose
id field holds the resolved downloadId (the content-bearing item's id, not
the indexed item's own identity, and with no separate downloadId field). -/
theorem indexEntriesFromResolvedItems (env : Env) (rootId : String)
    (items : List RemoteItem) (prevIndex : List (String × Entry)) (docs₀ : List String)
    (p : String) (e : Entry)
    (hab : (syncFiles env rootId items prevIndex docs₀).aborted = false)
    (h : getIdx (syncFiles env rootId items prevIndex docs₀).index p = some e) :
    entryFromPass env items e := by
  by_cases he : items.isEmpty = true
  · simp [syncFiles, he, getIdx] at h
  · cases hpr : (processItems env items rootId prevIndex (items.length + 2) items
        { newIndex := [], docs := docs₀, log := [] }).2 with
    | true =>
      simp [syncFiles, he, hpr] at hab
    | false =>
      simp only [syncFiles, he, hpr, Bool.false_eq_true, if_false] at h
      refine processItems_entryFromPass env items rootId prevIndex (items.length + 2)
        items { newIndex := [], docs := docs₀, log := [] } (fun x hx => hx) ?_ p e h
      intro q e₂ h₂
      simp [getIdx] at h₂

/-- Witness: the entry persisted for a plain root-level document arises
from that item with itself as resolved item and its own id as downloadId. -/
theorem indexEntriesFromResolvedItems_witness :
    (syncFiles envOk "root" [itemB] [] []).aborted = false ∧
    getIdx (syncFiles envOk "root" [itemB] [] []).index "/b" =
      some { id := "B", name := "b", mimeType := docMime, modifiedTime := "2",
             parent := some "root" } ∧
    entryFromPass envOk [itemB]
      { id := "B", name := "b", mimeType := docMime, modifiedTime := "2",
        parent := some "root" } :=
  ⟨rfl, rfl,
   indexEntriesFromResolvedItems envOk "root" [itemB] [] [] "/b"
     { id := "B", name := "b", mimeType := docMime, modifiedTime := "2",
       parent := some "root" } rfl rfl⟩

end GDSync
